import Mathlib

/-!
Shallow embedding of the `lexicon` git-backed DNS provider
(`src/lexicon/providers/git.py`) and of the DigitalOcean REST provider
(`src/lexicon/providers/digitalocean.py`), together with theorems that
settle the specification claims about them.

Strings are modelled by Lean `String` (a wrapper around `List Char`);
the Python string primitives used by the sources (`in`, `replace`,
`rstrip`, `os.path.join`, `os.path.relpath`) are given explicit
executable models on character lists.
-/

namespace Lexicon

/-! ## Character-list utilities modelling Python string primitives -/

/-- Models Python `pat in s` (substring containment) on character lists. -/
def containsPat (pat : List Char) : List Char → Bool
  | [] => pat.isPrefixOf []
  | c :: cs => pat.isPrefixOf (c :: cs) || containsPat pat cs

/-- Fuel-driven worker for `replaceChars`; fuel `l.length` always
suffices because every step consumes at least one character. -/
def replaceAux (pat repl : List Char) : Nat → List Char → List Char
  | 0, l => l
  | _ + 1, [] => []
  | fuel + 1, c :: cs =>
    if pat.isPrefixOf (c :: cs) then
      repl ++ replaceAux pat repl fuel (List.drop pat.length (c :: cs))
    else
      c :: replaceAux pat repl fuel cs

/-- Models Python `s.replace(pat, repl)`: leftmost, non-overlapping. -/
def replaceChars (pat repl l : List Char) : List Char :=
  replaceAux pat repl l.length l

/-- The literal placeholder `"{domain}"` used throughout `git.py`. -/
def domainPat : List Char := "{domain}".data

/-- Models Python `s.lower()` (character-wise lowering). -/
def strLower (s : String) : String :=
  String.mk (s.data.map Char.toLower)

/-- Models Python `s.rstrip('.')`: drop every trailing `'.'`. -/
def rstripDot (s : String) : String :=
  String.mk ((s.data.reverse.dropWhile (fun c => c = '.')).reverse)

/-- Models `str.split(sep)` for a one-character separator (as used by
`posixpath.normpath`). Always returns a non-empty list of separator-free
chunks. -/
def splitChars (sep : Char) : List Char → List (List Char)
  | [] => [[]]
  | c :: cs =>
    if c = sep then [] :: splitChars sep cs
    else
      match splitChars sep cs with
      | [] => [[c]]
      | h :: t => (c :: h) :: t

/-- Models `sep.join(chunks)` for a one-character separator. -/
def intercalateChars (sep : Char) : List (List Char) → List Char
  | [] => []
  | [c] => c
  | c :: cs => c ++ sep :: intercalateChars sep cs

/-- Models `posixpath.join(a, b)` for two components: an absolute `b`
wins; otherwise a separator is inserted unless `a` is empty or already
ends with one. -/
def pyJoin (a b : String) : String :=
  if b.data.head? = some '/' then b
  else if a = "" ∨ a.data.getLast? = some '/' then a ++ b
  else a ++ "/" ++ b

/-- One step of `posixpath.normpath` component processing on an
absolute path: `""` and `"."` are dropped, `".."` pops the last kept
component (collapsing harmlessly at the root), anything else is kept. -/
def normStep (acc : List (List Char)) (c : List Char) : List (List Char) :=
  if c = [] ∨ c = ['.'] then acc
  else if c = ['.', '.'] then acc.dropLast
  else acc ++ [c]

/-- Component normalization of `posixpath.normpath` for a path that is
absolute (the `git.py` resolver always joins onto `"/"` first). -/
def normAbsComps (cs : List (List Char)) : List (List Char) :=
  cs.foldl normStep []

/-- Models `posixpath.relpath(p, "/")` for an absolute `p`: normalize,
then re-join the components relative to the root (`"."` when empty). -/
def relFromRootData (p : List Char) : List Char :=
  if normAbsComps (splitChars '/' p) = [] then ['.']
  else intercalateChars '/' (normAbsComps (splitChars '/' p))

/-- Models `posixpath.join("/", f)`. -/
def joinRootChars (f : List Char) : List Char :=
  if f.head? = some '/' then f else '/' :: f

/-! ## Path Resolver: `Provider._zone_filename` of `git.py` -/

/-- The value of the local variable `filename` in `_zone_filename`
just before the final normalization line: the `git_path` option with
`None` replaced by `""`, then either `{domain}` substitution (when the
placeholder occurs) or a path join with the domain. -/
def resolveRaw (gitPath : Option String) (domain : String) : String :=
  let filename := gitPath.getD ""
  if containsPat domainPat filename.data then
    String.mk (replaceChars domainPat domain.data filename.data)
  else
    pyJoin filename domain

/-- `Provider._zone_filename`: the raw templated name, joined under a
synthetic root and re-expressed relative to it
(`os.path.relpath(os.path.join("/", filename), "/")`). -/
def zone_filename (gitPath : Option String) (domain : String) : String :=
  String.mk (relFromRootData (joinRootChars (resolveRaw gitPath domain).data))

/-! ## Git repository model (the slice of GitPython that `git.py` uses) -/

/-- Snapshot of the tracked file contents (path, text): the tree of a
commit, of the index, or of the working copy. -/
abbrev Tree := List (String × String)

/-- A repository: commit history (most recent first; the head commit's
tree is `history.head?`), the staged index, and the working tree. -/
structure GitRepo where
  history : List Tree
  index : Tree
  workTree : Tree
deriving DecidableEq, Repr

/-- The provider options consumed by `git.py`
(`self._get_provider_option(...)`); `none` models an unset option. -/
structure GitConfig where
  gitRepoUrl : Option String
  gitPath : Option String
  gitBranch : Option String
  gitPushBranch : Option String
  gitMessage : Option String
  gitName : Option String
  gitEmail : Option String
deriving DecidableEq, Repr

/-- The `git.PushInfo.ERROR` bit flag checked by `_push`. -/
def PUSHINFO_ERROR : Nat := 1024

/-- `_push` result classification: `push_info.flags & ERROR == ERROR`
means failure, anything else success. Failure is a boolean result, not
an exception. -/
def pushSucceeds (flags : Nat) : Bool :=
  if flags &&& PUSHINFO_ERROR = PUSHINFO_ERROR then false else true

/-- The refspec that `_push` actually hands to `repo.remote().push()`.
In the source, `_push(repo, **kwargs)` binds `kwargs` but invokes
`repo.remote().push()` with no arguments, so whatever branch keyword the
caller supplied is dropped and the remote's default refspec is used. -/
def pushRefspecUsed (kwargs : Option String) : Option String :=
  match kwargs with
  | _ => none

/-- The commit message built by `_commit`: the `git_message` option
(default `"Update {domain} (automated commit)"`), with `{domain}`
substituted when the placeholder occurs. -/
def commitMessage (cfg : GitConfig) (domain : String) : String :=
  let message := cfg.gitMessage.getD "Update {domain} (automated commit)"
  if containsPat domainPat message.data then
    String.mk (replaceChars domainPat domain.data message.data)
  else message

/-- The no-op test of `_commit` after staging:
`self.repo.head.is_valid() and not self.repo.index.diff(self.repo.head.commit)`
— the head exists and the staged tree equals the head commit's tree. -/
def noopCommit (r : GitRepo) : Bool :=
  match r.history.head? with
  | some h => decide (r.index = h)
  | none => false

/-- Everything observable about one `_commit` call. -/
structure CommitOutcome where
  repo : GitRepo
  result : Bool
  committed : Bool
  pushAttempted : Bool
  pushBranchArg : Option String
  pushRefspec : Option String
  message : Option String
  author : Option (Option String × Option String)
deriving DecidableEq, Repr

/-- `Provider._commit`: stage everything (`index.add('*')`); if the head
is valid and the staged diff against it is empty, log and return `True`
without committing; otherwise build the message, commit index as a new
head, and push (threading `git_push_branch` into the kwargs that `_push`
then ignores), returning the push classification. `flags` are the
result flags of the push the environment would perform. -/
def commitOp (cfg : GitConfig) (domain : String) (flags : Nat)
    (repo0 : GitRepo) : CommitOutcome :=
  let repo := { repo0 with index := repo0.workTree }
  if noopCommit repo then
    { repo := repo, result := true, committed := false, pushAttempted := false,
      pushBranchArg := none, pushRefspec := none, message := none, author := none }
  else
    let message := commitMessage cfg domain
    let repo2 := { repo with history := repo.index :: repo.history }
    let branch := cfg.gitPushBranch
    { repo := repo2, result := pushSucceeds flags, committed := true,
      pushAttempted := true, pushBranchArg := branch,
      pushRefspec := pushRefspecUsed branch, message := some message,
      author := some (cfg.gitName, cfg.gitEmail) }

/-- Everything observable about one mutating provider call. -/
structure MutateOutcome where
  repo : GitRepo
  result : Bool
  commitInvoked : Bool
  commit : Option CommitOutcome
deriving DecidableEq, Repr

/-- `Provider._create_record`: run the inherited Zone Store mutation
(modelled by its boolean result `superResult` and the working tree
`superWork` it leaves behind), then `if result: result = self._commit()`. -/
def createRecordGit (superResult : Bool) (superWork : Tree)
    (cfg : GitConfig) (domain : String) (flags : Nat)
    (repo0 : GitRepo) : MutateOutcome :=
  let repo := { repo0 with workTree := superWork }
  let result := superResult
  if result then
    let c := commitOp cfg domain flags repo
    { repo := c.repo, result := c.result, commitInvoked := true, commit := some c }
  else
    { repo := repo, result := result, commitInvoked := false, commit := none }

/-- `Provider._update_record`: same wrapper shape as `_create_record`. -/
def updateRecordGit (superResult : Bool) (superWork : Tree)
    (cfg : GitConfig) (domain : String) (flags : Nat)
    (repo0 : GitRepo) : MutateOutcome :=
  let repo := { repo0 with workTree := superWork }
  let result := superResult
  if result then
    let c := commitOp cfg domain flags repo
    { repo := c.repo, result := c.result, commitInvoked := true, commit := some c }
  else
    { repo := repo, result := result, commitInvoked := false, commit := none }

/-- `Provider._delete_record`: same wrapper shape as `_create_record`. -/
def deleteRecordGit (superResult : Bool) (superWork : Tree)
    (cfg : GitConfig) (domain : String) (flags : Nat)
    (repo0 : GitRepo) : MutateOutcome :=
  let repo := { repo0 with workTree := superWork }
  let result := superResult
  if result then
    let c := commitOp cfg domain flags repo
    { repo := c.repo, result := c.result, commitInvoked := true, commit := some c }
  else
    { repo := repo, result := result, commitInvoked := false, commit := none }

/-! ## `Provider._authenticate` of `git.py` -/

/-- The nullable provider attributes touched by `_authenticate`:
`temp_dir`, `filename`, `repo`, `domain_id`. -/
structure SessionState where
  tempDir : Option String
  filename : Option String
  repo : Option GitRepo
  domainId : Option String
deriving DecidableEq, Repr

/-- The external world one `_authenticate` call interacts with: the
name a fresh `TemporaryDirectory` would get, the outcome `_clone` would
produce if invoked, and the set of files readable in the working copy. -/
structure AuthEnv where
  tempDirName : String
  cloneOutcome : Except String GitRepo
  files : List String
deriving Repr

/-- Does the clone outcome model a `git.exc.GitCommandError`? -/
def isCloneError (o : Except String GitRepo) : Bool :=
  match o with
  | Except.error _ => true
  | Except.ok _ => false

/-- Everything observable about one `_authenticate` call: the state it
leaves behind (mutations before a raise persist), whether
`AuthenticationError` was raised, how many times `_clone` was invoked,
and the working-copy file set afterwards (the zone file is opened with
mode `"rt"`, which never creates a file). -/
structure AuthOutcome where
  state : SessionState
  raised : Bool
  cloneCalls : Nat
  filesAfter : List String
deriving DecidableEq, Repr

/-- The `if self.temp_dir is None:` block of `_authenticate`: lazily
create the temporary directory and compute
`self.filename = os.path.join(self.temp_dir.name, self._zone_filename())`. -/
def sessionWithWorkspace (cfg : GitConfig) (domain : String)
    (env : AuthEnv) (s : SessionState) : SessionState :=
  if s.tempDir = none then
    { s with tempDir := some env.tempDirName,
             filename := some (pyJoin env.tempDirName
                                (zone_filename cfg.gitPath domain)) }
  else s

/-- The tail of `_authenticate`: `open(self.filename, "rt")` (a
read-only probe that creates nothing), raising `AuthenticationError`
when it fails, else closing the file and setting `self.domain_id`. -/
def authOpenCheck (domain : String) (env : AuthEnv) (cloneCalls : Nat)
    (s : SessionState) : AuthOutcome :=
  if s.filename.getD "" ∈ env.files then
    { state := { s with domainId := some domain }, raised := false,
      cloneCalls := cloneCalls, filesAfter := env.files }
  else
    { state := s, raised := true, cloneCalls := cloneCalls,
      filesAfter := env.files }

/-- `Provider._authenticate`: ensure the temporary directory and the
resolved zone-file path exist (first call only), clone the configured
repository when no clone handle exists yet (raising
`AuthenticationError` on `GitCommandError`, with no retry), then verify
the zone file is present by opening it read-only. -/
def authenticateOp (cfg : GitConfig) (domain : String) (env : AuthEnv)
    (s0 : SessionState) : AuthOutcome :=
  let s := sessionWithWorkspace cfg domain env s0
  match s.repo with
  | none =>
    match env.cloneOutcome with
    | Except.error _ =>
      { state := s, raised := true, cloneCalls := 1, filesAfter := env.files }
    | Except.ok r => authOpenCheck domain env 1 { s with repo := some r }
  | some _ => authOpenCheck domain env 0 s

/-! ## DigitalOcean provider (`digitalocean.py`) -/

/-- A record as returned by the DigitalOcean API
(`payload['domain_records']` entries, the fields the provider reads). -/
structure RawRecord where
  rtype : String
  name : String
  data : String
  id : Nat
deriving DecidableEq, Repr

/-- A record as produced by `list_records`. -/
structure ProcRecord where
  rtype : String
  name : String
  ttl : String
  content : String
  id : Nat
deriving DecidableEq, Repr

/-- The per-record reshaping inside `list_records`: the API name is
qualified with the domain id, `ttl` is left empty, `data` becomes
`content`. -/
def processRecord (domainId : String) (r : RawRecord) : ProcRecord :=
  { rtype := r.rtype, name := r.name ++ "." ++ domainId, ttl := "",
    content := r.data, id := r.id }

/-- Python truthiness of an optional string filter argument
(`if type:` / `if name:` / `if content:`). -/
def truthyStr (v : Option String) : Bool :=
  match v with
  | none => false
  | some s => decide (s ≠ "")

/-- `Provider.list_records` of `digitalocean.py`, after the pagination
loop has fetched `raw`: reshape every record, then narrow by exact type,
by full name (via the inherited `_full_name`, passed as a function), and
by case-insensitive content; falsy filter arguments are no-ops. -/
def list_records (domainId : String) (fullName : String → String)
    (raw : List RawRecord) (rtype name content : Option String) :
    List ProcRecord :=
  let records := raw.map (processRecord domainId)
  let records := if truthyStr rtype then
      records.filter (fun r => decide (r.rtype = rtype.getD "")) else records
  let records := if truthyStr name then
      records.filter (fun r => decide (r.name = fullName (name.getD ""))) else records
  let records := if truthyStr content then
      records.filter
        (fun r => decide (strLower r.content = strLower (content.getD "")))
    else records
  records

/-- `Provider.create_record` of `digitalocean.py`: when no existing
record matches the (type, name, content) filters, POST a new record —
relativizing the name via the inherited `_relative_name` and, for CNAME,
normalizing the data to `data.rstrip('.') + '.'` — and in every case
return `True`. The second component is the POSTed record, `none` when
no request was issued. -/
def create_record (domainId : String) (fullName relName : String → String)
    (raw : List RawRecord) (rtype name content : String) :
    Bool × Option RawRecord :=
  if (list_records domainId fullName raw (some rtype) (some name)
        (some content)).length = 0 then
    (true, some (RawRecord.mk rtype (relName name)
      (if rtype = "CNAME" then rstripDot content ++ "." else content) 0))
  else
    (true, none)

/-! ## Lemmas about the path machinery -/

theorem splitChars_ne_nil (sep : Char) (l : List Char) :
    splitChars sep l ≠ [] := by
  cases l with
  | nil => simp [splitChars]
  | cons c cs =>
    rw [splitChars]
    by_cases h : c = sep
    · simp [h]
    · rw [if_neg h]
      cases splitChars sep cs <;> simp

theorem mem_splitChars_not_sep (sep : Char) (l : List Char) :
    ∀ c ∈ splitChars sep l, sep ∉ c := by
  induction l with
  | nil => intro c hc; rw [splitChars, List.mem_singleton] at hc; subst hc; simp
  | cons a as ih =>
    intro c hc
    rw [splitChars] at hc
    by_cases h : a = sep
    · rw [if_pos h, List.mem_cons] at hc
      rcases hc with hc | hc
      · subst hc; simp
      · exact ih c hc
    · rw [if_neg h] at hc
      rcases heq : splitChars sep as with _ | ⟨hd, tl⟩
      · exact absurd heq (splitChars_ne_nil sep as)
      · rw [heq, List.mem_cons] at hc
        rcases hc with hc | hc
        · subst hc
          intro hmem
          rw [List.mem_cons] at hmem
          rcases hmem with hmem | hmem
          · exact h hmem.symm
          · exact ih hd (heq ▸ List.mem_cons_self hd tl) hmem
        · exact ih c (heq ▸ List.mem_cons_of_mem hd hc)

theorem splitChars_no_sep (sep : Char) (l : List Char) (h : sep ∉ l) :
    splitChars sep l = [l] := by
  induction l with
  | nil => rfl
  | cons a as ih =>
    rw [List.mem_cons, not_or] at h
    rw [splitChars, if_neg (fun he => h.1 he.symm), ih h.2]

theorem splitChars_append_sep (sep : Char) (c r : List Char) (h : sep ∉ c) :
    splitChars sep (c ++ sep :: r) = c :: splitChars sep r := by
  induction c with
  | nil =>
    simp only [List.nil_append]
    rw [splitChars, if_pos rfl]
  | cons a as ih =>
    rw [List.mem_cons, not_or] at h
    rw [List.cons_append, splitChars, if_neg (fun he => h.1 he.symm),
      ih h.2]

theorem splitChars_intercalateChars (sep : Char) (comps : List (List Char))
    (h : comps ≠ []) (hall : ∀ c ∈ comps, sep ∉ c) :
    splitChars sep (intercalateChars sep comps) = comps := by
  induction comps with
  | nil => exact absurd rfl h
  | cons c rest ih =>
    cases rest with
    | nil =>
      rw [intercalateChars, splitChars_no_sep sep c
        (hall c (List.mem_cons_self c []))]
    | cons d ds =>
      rw [show intercalateChars sep (c :: d :: ds)
            = c ++ sep :: intercalateChars sep (d :: ds) from rfl,
        splitChars_append_sep sep c _ (hall c (List.mem_cons_self c _)),
        ih (by simp) (fun x hx => hall x (List.mem_cons_of_mem c hx))]

/-- The components normalization can only produce: non-empty, not
`".."`, separator-free. -/
def goodComp (c : List Char) : Prop :=
  c ≠ [] ∧ c ≠ ['.', '.'] ∧ '/' ∉ c

theorem foldl_normStep_good (cs : List (List Char)) (acc : List (List Char))
    (hacc : ∀ x ∈ acc, goodComp x) (hcs : ∀ c ∈ cs, '/' ∉ c) :
    ∀ x ∈ cs.foldl normStep acc, goodComp x := by
  induction cs generalizing acc with
  | nil => simpa using hacc
  | cons c cs ih =>
    rw [List.foldl_cons]
    refine ih (normStep acc c) ?_ (fun d hd => hcs d (List.mem_cons_of_mem c hd))
    intro y hy
    by_cases h1 : c = [] ∨ c = ['.']
    · rw [normStep, if_pos h1] at hy
      exact hacc y hy
    · by_cases h2 : c = ['.', '.']
      · rw [normStep, if_neg h1, if_pos h2] at hy
        exact hacc y ((List.dropLast_sublist acc).subset hy)
      · rw [normStep, if_neg h1, if_neg h2, List.mem_append] at hy
        rcases hy with hy | hy
        · exact hacc y hy
        · rw [List.mem_singleton] at hy
          subst hy
          exact ⟨fun he => h1 (Or.inl he), h2, hcs y (List.mem_cons_self y cs)⟩

theorem normAbsComps_good (cs : List (List Char))
    (hcs : ∀ c ∈ cs, '/' ∉ c) : ∀ x ∈ normAbsComps cs, goodComp x :=
  foldl_normStep_good cs [] (by simp) hcs

theorem intercalateChars_head (sep : Char) (c : List Char)
    (rest : List (List Char)) (hc : c ≠ []) :
    (intercalateChars sep (c :: rest)).head? = c.head? := by
  cases rest with
  | nil => rfl
  | cons d ds =>
    rw [show intercalateChars sep (c :: d :: ds)
          = c ++ sep :: intercalateChars sep (d :: ds) from rfl]
    cases c with
    | nil => exact absurd rfl hc
    | cons a as => rfl

/-! ## Claim theorems: Path Resolver -/

/-- Claim C5: for every template and domain, the resolved zone-file path
contains no `..` segments and never starts at the root (it is relative,
so it cannot reference an ancestor of the repository root), even when
the template contains `../` or absolute prefixes; in particular
`"../../../foo"` resolves to `"foo/example.com"` and `"foo/../.."` to
`"example.com"`. -/
theorem zone_filename_normalized (gp : Option String) (d : String) :
    ['.', '.'] ∉ splitChars '/' (zone_filename gp d).data
    ∧ (zone_filename gp d).data.head? ≠ some '/'
    ∧ zone_filename (some "../../../foo") "example.com" = "foo/example.com"
    ∧ zone_filename (some "foo/../..") "example.com" = "example.com" := by
  have hcs := mem_splitChars_not_sep '/' (joinRootChars (resolveRaw gp d).data)
  have hgood := normAbsComps_good _ hcs
  have hdata : (zone_filename gp d).data
      = relFromRootData (joinRootChars (resolveRaw gp d).data) := rfl
  refine ⟨?_, ?_, by decide, by decide⟩
  · rw [hdata, relFromRootData]
    by_cases h : normAbsComps
        (splitChars '/' (joinRootChars (resolveRaw gp d).data)) = []
    · rw [if_pos h]; decide
    · rw [if_neg h, splitChars_intercalateChars '/' _ h
        (fun x hx => (hgood x hx).2.2)]
      intro hmem
      exact (hgood _ hmem).2.1 rfl
  · rw [hdata, relFromRootData]
    by_cases h : normAbsComps
        (splitChars '/' (joinRootChars (resolveRaw gp d).data)) = []
    · rw [if_pos h]; decide
    · rw [if_neg h]
      rcases hcomp : normAbsComps
          (splitChars '/' (joinRootChars (resolveRaw gp d).data))
        with _ | ⟨c, rest⟩
      · exact absurd hcomp h
      · have hcmem : c ∈ normAbsComps
            (splitChars '/' (joinRootChars (resolveRaw gp d).data)) := by
          rw [hcomp]; exact List.mem_cons_self c rest
        have hg := hgood c hcmem
        rw [intercalateChars_head '/' c rest hg.1]
        cases c with
        | nil => exact absurd rfl hg.1
        | cons a as =>
          intro he
          rw [List.head?_cons, Option.some_inj] at he
          exact hg.2.2 (he ▸ List.mem_cons_self a as)

/-- A domain name that is a single plain path component (non-empty, not
a dot component, no separator) — true of every actual DNS zone name. -/
abbrev validDomainName (d : String) : Prop :=
  d ≠ "" ∧ d ≠ "." ∧ d ≠ ".." ∧ '/' ∉ d.data

theorem empty_append_str (s : String) : "" ++ s = s := by
  apply String.ext
  rw [String.data_append]
  rfl

/-- Claim C6: the zone-file path resolver obeys three exclusive
branches — absent/empty template yields the domain itself; a template
containing `{domain}` has every occurrence substituted and is used
as-is without joining the domain; any other template is joined with the
domain. -/
theorem zone_filename_branches (gp : Option String) (d : String) :
    ((gp = none ∨ gp = some "") → resolveRaw gp d = d
      ∧ (validDomainName d → zone_filename gp d = d))
    ∧ (∀ t, gp = some t → containsPat domainPat t.data = true →
        resolveRaw gp d = String.mk (replaceChars domainPat d.data t.data))
    ∧ (∀ t, gp = some t → containsPat domainPat t.data = false →
        resolveRaw gp d = pyJoin t d) := by
  refine ⟨?_, ?_, ?_⟩
  · intro hgp
    have hraw : resolveRaw gp d = d := by
      have hpat : containsPat domainPat ("" : String).data = false := by decide
      rcases hgp with h | h <;> subst h <;>
        · rw [resolveRaw]
          simp only [Option.getD_none, Option.getD_some, hpat, Bool.false_eq_true,
            if_false]
          rw [pyJoin]
          by_cases hd : d.data.head? = some '/'
          · rw [if_pos hd]
          · rw [if_neg hd, if_pos (Or.inl rfl), empty_append_str]
    refine ⟨hraw, fun hv => ?_⟩
    have hd_eq : String.mk d.data = d := rfl
    have hnd : d.data ≠ [] := fun he => hv.1 (hd_eq.symm.trans (by rw [he]))
    have hdot : d.data ≠ ['.'] := fun he => hv.2.1 (hd_eq.symm.trans (by rw [he]))
    have hdd : d.data ≠ ['.', '.'] :=
      fun he => hv.2.2.1 (hd_eq.symm.trans (by rw [he]))
    have hslash : '/' ∉ d.data := hv.2.2.2
    have hhead : ¬d.data.head? = some '/' := by
      cases hdm : d.data with
      | nil => simp
      | cons a as =>
        rw [List.head?_cons]
        intro he
        rw [Option.some_inj] at he
        exact hslash (hdm ▸ (he ▸ List.mem_cons_self a as))
    have hsplit : splitChars '/' ('/' :: d.data) = [[], d.data] := by
      rw [splitChars, if_pos rfl, splitChars_no_sep '/' d.data hslash]
    have hnorm : normAbsComps [[], d.data] = [d.data] := by
      rw [normAbsComps]
      simp only [List.foldl_cons, List.foldl_nil, normStep]
      simp [hnd, hdot, hdd]
    rw [zone_filename, hraw, joinRootChars, if_neg hhead, relFromRootData,
      hsplit, hnorm, if_neg (by simp), intercalateChars, hd_eq]
  · intro t ht hc
    subst ht
    rw [resolveRaw]
    simp only [Option.getD_some, hc, if_true]
  · intro t ht hc
    subst ht
    rw [resolveRaw]
    simp only [Option.getD_some, hc, Bool.false_eq_true, if_false]

/-- Witness for C6: all three branches exercised at concrete inputs. -/
theorem zone_filename_branches_witness :
    (resolveRaw none "example.com" = "example.com"
      ∧ zone_filename none "example.com" = "example.com")
    ∧ resolveRaw (some "db.{domain}") "example.com"
        = String.mk (replaceChars domainPat "example.com".data "db.{domain}".data)
    ∧ resolveRaw (some "foo") "example.com" = pyJoin "foo" "example.com" := by
  refine ⟨⟨((zone_filename_branches none "example.com").1 (Or.inl rfl)).1,
    ((zone_filename_branches none "example.com").1 (Or.inl rfl)).2 (by decide)⟩,
    (zone_filename_branches (some "db.{domain}") "example.com").2.1
      "db.{domain}" rfl (by decide),
    (zone_filename_branches (some "foo") "example.com").2.2 "foo" rfl
      (by decide)⟩

/-! ## Claim theorems: Record Mutator and Repository Session -/

/-- Claim C1: every mutating operation of the git provider returns the
logical AND of the Zone Store mutation's success and the commit's
success, and a falsy mutation result suppresses the commit attempt
(`commitInvoked` equals the mutation result). -/
theorem git_mutations_and_commit (superResult : Bool) (superWork : Tree)
    (cfg : GitConfig) (domain : String) (flags : Nat) (repo : GitRepo) :
    ((createRecordGit superResult superWork cfg domain flags repo).result
        = (superResult
            && (commitOp cfg domain flags
                  { repo with workTree := superWork }).result)
      ∧ (createRecordGit superResult superWork cfg domain flags
            repo).commitInvoked = superResult)
    ∧ ((updateRecordGit superResult superWork cfg domain flags repo).result
        = (superResult
            && (commitOp cfg domain flags
                  { repo with workTree := superWork }).result)
      ∧ (updateRecordGit superResult superWork cfg domain flags
            repo).commitInvoked = superResult)
    ∧ ((deleteRecordGit superResult superWork cfg domain flags repo).result
        = (superResult
            && (commitOp cfg domain flags
                  { repo with workTree := superWork }).result)
      ∧ (deleteRecordGit superResult superWork cfg domain flags
            repo).commitInvoked = superResult) := by
  cases superResult <;>
    simp [createRecordGit, updateRecordGit, deleteRecordGit]

/-- Claim C2: when the head is valid and the staged tree equals the
head tree, `_commit` succeeds without creating a commit; moreover a
second `_commit` right after any `_commit` (no intervening mutation)
never creates a commit, so the head advances exactly once when the
first call had something to commit. -/
theorem commit_idempotent_noop (cfg : GitConfig) (domain : String)
    (f1 f2 : Nat) (repo : GitRepo) :
    (repo.history.head? = some repo.workTree →
      (commitOp cfg domain f1 repo).result = true
        ∧ (commitOp cfg domain f1 repo).committed = false
        ∧ (commitOp cfg domain f1 repo).repo.history = repo.history)
    ∧ (repo.history.head? ≠ some repo.workTree →
        (commitOp cfg domain f1 repo).repo.history
          = repo.workTree :: repo.history)
    ∧ (commitOp cfg domain f2 (commitOp cfg domain f1 repo).repo).committed
        = false
    ∧ (commitOp cfg domain f2 (commitOp cfg domain f1 repo).repo).repo.history
        = (commitOp cfg domain f1 repo).repo.history := by
  have second : ∀ r1 : GitRepo,
      (commitOp cfg domain f2 (commitOp cfg domain f1 r1).repo).committed
          = false
        ∧ (commitOp cfg domain f2
              (commitOp cfg domain f1 r1).repo).repo.history
            = (commitOp cfg domain f1 r1).repo.history := by
    intro r1
    by_cases hn : noopCommit { r1 with index := r1.workTree } = true
    · simp [commitOp, hn]
    · rw [Bool.not_eq_true] at hn
      have h2 : noopCommit
          { history := r1.workTree :: r1.history, index := r1.workTree,
            workTree := r1.workTree } = true := by
        simp [noopCommit]
      simp [commitOp, hn, h2]
  refine ⟨?_, ?_, (second repo).1, (second repo).2⟩
  · intro h
    simp [commitOp, noopCommit, h]
  · intro h
    have hnc : noopCommit { repo with index := repo.workTree } = false := by
      rcases hh : repo.history.head? with _ | a
      · simp [noopCommit, hh]
      · have hne : ¬repo.workTree = a := fun he => h (by rw [hh, he])
        simp [noopCommit, hh, hne]
    simp [commitOp, hnc]

/-- A sample zone-file tree. -/
def treeA : Tree := [("example.com", "v1")]

/-- A second, different sample zone-file tree. -/
def treeB : Tree := [("example.com", "v2")]

/-- A configuration with every option unset. -/
def cfgSample : GitConfig := ⟨none, none, none, none, none, none, none⟩

/-- A repository whose working tree matches its head commit. -/
def repoClean : GitRepo := ⟨[treeA], treeA, treeA⟩

/-- A repository whose working tree differs from its head commit. -/
def repoDirty : GitRepo := ⟨[treeA], treeA, treeB⟩

/-- Witness for C2: a clean repository commits as a no-op success, and
a dirty one advances the head by exactly the staged tree. -/
theorem commit_idempotent_noop_witness :
    ((commitOp cfgSample "example.com" 0 repoClean).result = true
      ∧ (commitOp cfgSample "example.com" 0 repoClean).committed = false
      ∧ (commitOp cfgSample "example.com" 0 repoClean).repo.history
          = repoClean.history)
    ∧ (commitOp cfgSample "example.com" 0 repoDirty).repo.history
        = repoDirty.workTree :: repoDirty.history :=
  ⟨(commit_idempotent_noop cfgSample "example.com" 0 0 repoClean).1
      (by decide),
    (commit_idempotent_noop cfgSample "example.com" 0 0 repoDirty).2.1
      (by decide)⟩

/-- A configuration that sets a push branch different from the pull
branch. -/
def pushBranchCfg : GitConfig :=
  ⟨some "https://example.org/dns.git", none, some "main", some "production",
    none, none, none⟩

/-- Claim C3 (code bug): with `git-push-branch = "production"` and a
real commit, `_commit` hands the branch to `_push` in its kwargs, but
the refspec actually given to `repo.remote().push()` is the default
(`none`), not the configured branch — `_push` drops its kwargs, so the
documented push-branch behaviour never happens. -/
theorem push_branch_option_ignored :
    (commitOp pushBranchCfg "example.com" 0 repoDirty).committed = true
    ∧ (commitOp pushBranchCfg "example.com" 0 repoDirty).pushAttempted = true
    ∧ (commitOp pushBranchCfg "example.com" 0 repoDirty).pushBranchArg
        = some "production"
    ∧ (commitOp pushBranchCfg "example.com" 0 repoDirty).pushRefspec
        = none := by
  decide

/-- Claim C4: a push whose result flags carry the error bit makes the
enclosing mutating operation return `False` even though the local commit
was created (the head advanced); without the error bit the operation
returns `True`. The outcome is a boolean result, never an exception. -/
theorem push_error_flag_result (cfg : GitConfig) (domain : String)
    (flags : Nat) (superWork : Tree) (repo : GitRepo)
    (hdirty : repo.history.head? ≠ some superWork) :
    (flags &&& PUSHINFO_ERROR = PUSHINFO_ERROR →
      (createRecordGit true superWork cfg domain flags repo).result = false
        ∧ (createRecordGit true superWork cfg domain flags repo).repo.history
            = superWork :: repo.history)
    ∧ (¬flags &&& PUSHINFO_ERROR = PUSHINFO_ERROR →
        (createRecordGit true superWork cfg domain flags repo).result = true
          ∧ (createRecordGit true superWork cfg domain flags
                repo).repo.history
              = superWork :: repo.history) := by
  have hnc : noopCommit
      { history := repo.history, index := superWork, workTree := superWork }
        = false := by
    rcases hh : repo.history.head? with _ | a
    · simp [noopCommit, hh]
    · have hne : ¬superWork = a := fun he => hdirty (by rw [hh, he])
      simp [noopCommit, hh, hne]
  constructor
  · intro h
    simp [createRecordGit, commitOp, hnc, pushSucceeds, h]
  · intro h
    simp [createRecordGit, commitOp, hnc, pushSucceeds, h]

/-- Witness for C4: flags `1024` (the error bit) make the create fail
after committing; flags `0` make it succeed. -/
theorem push_error_flag_result_witness :
    ((createRecordGit true treeB cfgSample "example.com" 1024
        (⟨[], [], []⟩ : GitRepo)).result = false
      ∧ (createRecordGit true treeB cfgSample "example.com" 1024
          (⟨[], [], []⟩ : GitRepo)).repo.history = [treeB])
    ∧ ((createRecordGit true treeB cfgSample "example.com" 0
          (⟨[], [], []⟩ : GitRepo)).result = true
        ∧ (createRecordGit true treeB cfgSample "example.com" 0
            (⟨[], [], []⟩ : GitRepo)).repo.history = [treeB]) :=
  ⟨(push_error_flag_result cfgSample "example.com" 1024 treeB
      (⟨[], [], []⟩ : GitRepo) (by decide)).1 (by decide),
    (push_error_flag_result cfgSample "example.com" 0 treeB
      (⟨[], [], []⟩ : GitRepo) (by decide)).2 (by decide)⟩

/-! ## Claim theorems: authentication session -/

theorem sessionWithWorkspace_repo (cfg : GitConfig) (domain : String)
    (env : AuthEnv) (s : SessionState) :
    (sessionWithWorkspace cfg domain env s).repo = s.repo := by
  rw [sessionWithWorkspace]
  split <;> rfl

/-- Claim C7: `_authenticate` raises an authentication error exactly
when the clone (attempted only if no clone handle exists) fails, or the
resolved zone file is absent from the working copy; the zone file is
probed read-only so the file set is untouched, and the clone is invoked
at most once per call. -/
theorem authenticate_error_conditions (cfg : GitConfig) (domain : String)
    (env : AuthEnv) (s : SessionState) :
    ((authenticateOp cfg domain env s).raised = true ↔
      ((s.repo = none ∧ isCloneError env.cloneOutcome = true)
        ∨ (sessionWithWorkspace cfg domain env s).filename.getD ""
            ∉ env.files))
    ∧ (authenticateOp cfg domain env s).cloneCalls ≤ 1
    ∧ (authenticateOp cfg domain env s).filesAfter = env.files := by
  have hrepo := sessionWithWorkspace_repo cfg domain env s
  rcases hs : s.repo with _ | r
  · rw [hs] at hrepo
    rcases hc : env.cloneOutcome with e | r0
    · simp [authenticateOp, authOpenCheck, hrepo, hc, isCloneError, hs]
    · by_cases hm : (sessionWithWorkspace cfg domain env s).filename.getD ""
          ∈ env.files <;>
        simp [authenticateOp, authOpenCheck, hrepo, hc, isCloneError, hs, hm]
  · rw [hs] at hrepo
    by_cases hm : (sessionWithWorkspace cfg domain env s).filename.getD ""
        ∈ env.files <;>
      simp [authenticateOp, authOpenCheck, hrepo, hs, hm]

/-- Claim C8: the temporary directory, the resolved zone-file path and
the clone are created on the first `_authenticate` call only — the path
as the pure function `zone_filename` of the template option and the
domain — and a later call on a session that already has them re-clones
nothing and leaves them unchanged. -/
theorem authenticate_reuses_session (cfg : GitConfig) (domain : String)
    (env : AuthEnv) (s : SessionState) :
    (s.tempDir = none →
      (authenticateOp cfg domain env s).state.tempDir = some env.tempDirName
        ∧ (authenticateOp cfg domain env s).state.filename
            = some (pyJoin env.tempDirName
                (zone_filename cfg.gitPath domain)))
    ∧ (∀ td r, s.tempDir = some td → s.repo = some r →
        (authenticateOp cfg domain env s).cloneCalls = 0
          ∧ (authenticateOp cfg domain env s).state.tempDir = some td
          ∧ (authenticateOp cfg domain env s).state.filename = s.filename
          ∧ (authenticateOp cfg domain env s).state.repo = some r) := by
  constructor
  · intro h
    have hw : sessionWithWorkspace cfg domain env s
        = SessionState.mk (some env.tempDirName)
            (some (pyJoin env.tempDirName (zone_filename cfg.gitPath domain)))
            s.repo s.domainId := by
      rw [sessionWithWorkspace, if_pos h]
    rcases hc : env.cloneOutcome with e | r0 <;>
      by_cases hm : pyJoin env.tempDirName (zone_filename cfg.gitPath domain)
          ∈ env.files <;>
        rcases hs : s.repo with _ | r <;>
          simp [authenticateOp, authOpenCheck, hw, hc, hm, hs]
  · intro td r h1 h2
    have hss : sessionWithWorkspace cfg domain env s = s := by
      rw [sessionWithWorkspace, if_neg (by rw [h1]; simp)]
    by_cases hm : s.filename.getD "" ∈ env.files <;>
      simp [authenticateOp, authOpenCheck, hss, h1, h2, hm]

/-- A fresh provider instance (`__init__` leaves every handle unset). -/
def freshSession : SessionState := ⟨none, none, none, none⟩

/-- A session that already authenticated once against `repoClean`. -/
def reusedSession : SessionState :=
  ⟨some "/tmp/dns-lexicon-git-x", some "/tmp/dns-lexicon-git-x/example.com",
    some repoClean, some "example.com"⟩

/-- An environment whose clone succeeds and whose working copy contains
the resolved zone file. -/
def envSample : AuthEnv :=
  ⟨"/tmp/dns-lexicon-git-x", Except.ok repoClean,
    ["/tmp/dns-lexicon-git-x/example.com"]⟩

/-- Witness for C8: the first call creates the workspace and computes
the path; a second call with clone and directory present reuses both
and never re-clones. -/
theorem authenticate_reuses_session_witness :
    ((authenticateOp cfgSample "example.com" envSample freshSession).state.tempDir
        = some envSample.tempDirName
      ∧ (authenticateOp cfgSample "example.com" envSample
            freshSession).state.filename
          = some (pyJoin envSample.tempDirName
              (zone_filename cfgSample.gitPath "example.com")))
    ∧ ((authenticateOp cfgSample "example.com" envSample
          reusedSession).cloneCalls = 0
        ∧ (authenticateOp cfgSample "example.com" envSample
            reusedSession).state.tempDir = some "/tmp/dns-lexicon-git-x"
        ∧ (authenticateOp cfgSample "example.com" envSample
            reusedSession).state.filename = reusedSession.filename
        ∧ (authenticateOp cfgSample "example.com" envSample
            reusedSession).state.repo = some repoClean) :=
  ⟨(authenticate_reuses_session cfgSample "example.com" envSample
      freshSession).1 rfl,
    (authenticate_reuses_session cfgSample "example.com" envSample
      reusedSession).2 "/tmp/dns-lexicon-git-x" repoClean rfl rfl⟩

/-! ## Claim theorems: DigitalOcean provider -/

/-- Claim C9: `create_record` always returns `True`; when a record
matching the (type, name, content) filters already exists, no POST is
issued and the call still reports success. -/
theorem digitalocean_create_record_true (domainId : String)
    (fullName relName : String → String) (raw : List RawRecord)
    (rtype name content : String) :
    (create_record domainId fullName relName raw rtype name content).1 = true
    ∧ (list_records domainId fullName raw (some rtype) (some name)
          (some content) ≠ [] →
        (create_record domainId fullName relName raw rtype name content).2
          = none) := by
  constructor
  · rw [create_record]
    split <;> rfl
  · intro h
    rw [create_record,
      if_neg (by simpa [List.length_eq_zero] using h)]

/-- A backend already holding the record about to be created. -/
def rawSample : List RawRecord := [⟨"A", "www", "1.2.3.4", 7⟩]

/-- Witness for C9: creating a record that `list_records` already
reports yields `True` with no POST. -/
theorem digitalocean_create_record_true_witness :
    (create_record "example.com" (fun n => n) (fun n => n) rawSample "A"
        "www.example.com" "1.2.3.4").1 = true
    ∧ (create_record "example.com" (fun n => n) (fun n => n) rawSample "A"
        "www.example.com" "1.2.3.4").2 = none :=
  ⟨(digitalocean_create_record_true "example.com" (fun n => n) (fun n => n)
      rawSample "A" "www.example.com" "1.2.3.4").1,
    (digitalocean_create_record_true "example.com" (fun n => n) (fun n => n)
      rawSample "A" "www.example.com" "1.2.3.4").2 (by decide)⟩

theorem head_dropWhile_false {p : Char → Bool} (l : List Char) (a : Char)
    (h : (l.dropWhile p).head? = some a) : p a = false := by
  induction l with
  | nil => simp [List.dropWhile] at h
  | cons c cs ih =>
    rw [List.dropWhile_cons] at h
    by_cases hc : p c
    · rw [if_pos hc] at h
      exact ih h
    · rw [if_neg hc] at h
      rw [List.head?_cons, Option.some_inj] at h
      subst h
      rw [Bool.not_eq_true] at hc
      exact hc

theorem rstripDot_getLast_ne (s : String) :
    (rstripDot s).data.getLast? ≠ some '.' := by
  intro h
  rw [show (rstripDot s).data
      = (s.data.reverse.dropWhile (fun c => c = '.')).reverse from rfl,
    List.getLast?_reverse] at h
  have := head_dropWhile_false _ _ h
  simp at this

/-- Claim C10: when `create_record` POSTs a CNAME, the data sent is the
content with trailing dots stripped and exactly one dot appended (so it
ends in precisely one dot); any other type is sent unchanged. -/
theorem digitalocean_cname_trailing_dot (domainId : String)
    (fullName relName : String → String) (raw : List RawRecord)
    (rtype name content : String) (r : RawRecord)
    (hpost : (create_record domainId fullName relName raw rtype name
        content).2 = some r) :
    (rtype = "CNAME" →
      r.data = rstripDot content ++ "."
        ∧ r.data.data.getLast? = some '.'
        ∧ r.data.data.dropLast.getLast? ≠ some '.')
    ∧ (rtype ≠ "CNAME" → r.data = content) := by
  rw [create_record] at hpost
  by_cases hlen : (list_records domainId fullName raw (some rtype)
      (some name) (some content)).length = 0
  · rw [if_pos hlen, Option.some_inj] at hpost
    subst hpost
    constructor
    · intro hcn
      refine ⟨by simp [hcn], ?_, ?_⟩
      · rw [show (RawRecord.mk rtype (relName name)
            (if rtype = "CNAME" then rstripDot content ++ "." else content)
            0).data = if rtype = "CNAME" then rstripDot content ++ "."
              else content from rfl,
          if_pos hcn, String.data_append,
          show ("." : String).data = ['.'] from rfl,
          List.getLast?_concat]
      · rw [show (RawRecord.mk rtype (relName name)
            (if rtype = "CNAME" then rstripDot content ++ "." else content)
            0).data = if rtype = "CNAME" then rstripDot content ++ "."
              else content from rfl,
          if_pos hcn, String.data_append,
          show ("." : String).data = ['.'] from rfl,
          List.dropLast_concat]
        exact rstripDot_getLast_ne content
    · intro hcn
      simp [hcn]
  · rw [if_neg hlen] at hpost
    simp at hpost

/-- Witness for C10: a CNAME whose content carries two trailing dots is
normalized to exactly one; an A record passes through unchanged. -/
theorem digitalocean_cname_trailing_dot_witness :
    ((RawRecord.mk "CNAME" "alias" "target.example.org." 0).data
        = rstripDot "target.example.org.." ++ "."
      ∧ (RawRecord.mk "CNAME" "alias" "target.example.org."
          0).data.data.getLast? = some '.'
      ∧ (RawRecord.mk "CNAME" "alias" "target.example.org."
          0).data.data.dropLast.getLast? ≠ some '.')
    ∧ (RawRecord.mk "A" "www" "1.2.3.4" 0).data = "1.2.3.4" :=
  ⟨(digitalocean_cname_trailing_dot "example.com" (fun n => n) (fun n => n)
      [] "CNAME" "alias" "target.example.org.."
      (RawRecord.mk "CNAME" "alias" "target.example.org." 0)
      (by decide)).1 rfl,
    (digitalocean_cname_trailing_dot "example.com" (fun n => n) (fun n => n)
      [] "A" "www" "1.2.3.4"
      (RawRecord.mk "A" "www" "1.2.3.4" 0) (by decide)).2 (by decide)⟩

end Lexicon
